import Mathlib

/-!
Verification development for the binread decoding engine.

The definitions below are a shallow embedding of the Python sources
`format.py`, `types.py` and `reader.py`:

* `FieldType` models the descriptor classes (`Integer`, `Float`, `Array`,
  `Tuple`, `String`, `Format`).  Each constructor carries the explicit
  byte-order preference (`_byteorder`), the mutable default byte order
  (`_default_byteorder`, initialised to `native` by `FieldType.__init__`)
  and the optional post-decode transform (`to`).
* Python mutates a child descriptor's `_default_byteorder` when a
  containing `Format`/`Array`/`String` is constructed; the embedding
  models this in the smart constructors `mkFormat` / `mkArray` /
  `mkString` via `setDefault`, which (like the Python assignment)
  rewrites only the top-level default of the child, never recursing
  into grandchildren.
* `run` is a fuel-indexed interpreter covering `extract` / `read_field`
  and the decoding loops; fuel exhaustion (`Err.outOfFuel`) models
  Python non-termination (e.g. a terminator loop whose element consumes
  zero bytes).  Each recursive call decrements the fuel so that `run`
  is structurally recursive and kernel-reducible.
* Machine integers are `Int`/`Nat` with explicit powers of two; a byte
  is a `Nat` denoting a value in `[0, 256)`.
* Floats are kept symbolic: `Value.float raw e` denotes the IEEE754
  value obtained by unpacking `raw` with byte order `e`; the claims
  below only concern the error behaviour of `Float`, never float
  arithmetic.
* `ByteReader` models `reader.py` (a `BytesIO`-backed reader): `read`
  returns up to `size` bytes and advances the position by the number of
  bytes actually returned, also on a failed read.
-/

namespace Binread

/-- A resolved endianness, i.e. the two values `sys.byteorder` can take. -/
inductive Endian where
  | little
  | big
deriving DecidableEq

/-- The `ByteOrder` literal of the source: `little`, `big` or `native`. -/
inductive BOrder where
  | little
  | big
  | native
deriving DecidableEq

/-- The exceptions raised by the source (`NotEnoughBytes` plus the
generic `Exception`s with their distinguishing messages, `KeyError`,
`TypeError` and `UnicodeDecodeError`), together with `outOfFuel`, which
models non-termination of the Python loops. -/
inductive Err where
  | outOfFuel
  | notEnoughBytes
  | leftOverBytes
  | invalidFloatSize
  | missingStrategy
  | keyError (name : String)
  | typeError
  | invalidEncoding
deriving DecidableEq

/-- A byte string: each entry denotes a byte in `[0, 256)`. -/
abbrev Bytes := List Nat

/-- A decoded Python value.  `float raw e` stands for the IEEE754 number
unpacked from `raw` with byte order `e`; `str bytes enc` stands for the
text obtained by decoding `bytes` with codec `enc` (injective for valid
input, so byte-level equality is faithful). -/
inductive Value where
  | int (n : Int)
  | float (raw : Bytes) (e : Endian)
  | list (vs : List Value)
  | str (bytes : Bytes) (encoding : String)
  | dict (entries : List (String × Value))

/-- The context of previously decoded fields: the ordered `fields`
dictionary threaded through a `Format.read`. -/
abbrev Context := List (String × Value)

/-- A length / length_bytes specifier: a literal `int`, a `str` naming a
previously decoded field, or a callable of the context
(`Array.__init__`'s `length` / `length_bytes` argument). -/
inductive LengthSpec where
  | lit (n : Int)
  | ref (name : String)
  | fn (f : Context → Int)

/-- The descriptor classes.  Every constructor ends with the three
`FieldType.__init__` attributes: the explicit byte order `bo`
(`_byteorder`), the default byte order `dbo` (`_default_byteorder`) and
the optional transform (`to`).  `strT` is the `String` class: its
element is always a `U8` instance whose own mutable default byte order
is recorded as `elemDbo`. -/
inductive FieldType where
  | integer (size : Nat) (signed : Bool) (bo : Option BOrder) (dbo : BOrder)
      (transform : Option (Value → Value))
  | float (size : Nat) (bo : Option BOrder) (dbo : BOrder)
      (transform : Option (Value → Value))
  | array (element : FieldType) (length lengthBytes : Option LengthSpec)
      (terminator : Option Bytes) (bo : Option BOrder) (dbo : BOrder)
      (transform : Option (Value → Value))
  | tuple (fields : List FieldType) (bo : Option BOrder) (dbo : BOrder)
      (transform : Option (Value → Value))
  | strT (elemDbo : BOrder) (length lengthBytes : Option LengthSpec)
      (terminator : Option Bytes) (encoding : String) (bo : Option BOrder)
      (dbo : BOrder) (transform : Option (Value → Value))
  | format (fields : List (String × FieldType)) (bo : Option BOrder)
      (dbo : BOrder) (transform : Option (Value → Value))

/-- The explicit `_byteorder` of a descriptor. -/
def getBO : FieldType → Option BOrder
  | .integer _ _ bo _ _ => bo
  | .float _ bo _ _ => bo
  | .array _ _ _ _ bo _ _ => bo
  | .tuple _ bo _ _ => bo
  | .strT _ _ _ _ _ bo _ _ => bo
  | .format _ bo _ _ => bo

/-- The `_default_byteorder` of a descriptor. -/
def getDBO : FieldType → BOrder
  | .integer _ _ _ dbo _ => dbo
  | .float _ _ dbo _ => dbo
  | .array _ _ _ _ _ dbo _ => dbo
  | .tuple _ _ dbo _ => dbo
  | .strT _ _ _ _ _ _ dbo _ => dbo
  | .format _ _ dbo _ => dbo

/-- The optional transform (`to`) of a descriptor. -/
def getTransform : FieldType → Option (Value → Value)
  | .integer _ _ _ _ t => t
  | .float _ _ _ t => t
  | .array _ _ _ _ _ _ t => t
  | .tuple _ _ _ t => t
  | .strT _ _ _ _ _ _ _ t => t
  | .format _ _ _ t => t

/-- The assignment `field._default_byteorder = d` of the source: it
rewrites only the top-level default of the descriptor and never recurses
into an already-constructed child's own fields. -/
def setDefault (d : BOrder) : FieldType → FieldType
  | .integer s sg bo _ t => .integer s sg bo d t
  | .float s bo _ t => .float s bo d t
  | .array el l lb term bo _ t => .array el l lb term bo d t
  | .tuple fs bo _ t => .tuple fs bo d t
  | .strT edbo l lb term enc bo _ t => .strT edbo l lb term enc bo d t
  | .format fs bo _ t => .format fs bo d t

/-- Maps a `BOrder` to a resolved endianness, with `native` equal to the
process byte order `sys` (`sys.byteorder`). -/
def endianOf (sys : Endian) : BOrder → Endian
  | .little => .little
  | .big => .big
  | .native => sys

/-- `FieldType.byteorder()`: the explicit order if present, otherwise the
default, with `native` resolved to `sys.byteorder`. -/
def resolveBO (sys : Endian) (bo : Option BOrder) (dbo : BOrder) : Endian :=
  match bo with
  | some b => endianOf sys b
  | none => endianOf sys dbo

/-- The resolved byte order of a descriptor (its `byteorder()` method). -/
def resolveOf (sys : Endian) (ft : FieldType) : Endian :=
  resolveBO sys (getBO ft) (getDBO ft)

/-- `reader.py`'s `normalize_byteorder`. -/
def normalizeByteorder (sys : Endian) : BOrder → Endian
  | .native => sys
  | .little => .little
  | .big => .big

/-- `Integer(size, signed, byteorder=bo)` of the source; the default
byte order starts out as `native` (`FieldType.__init__`). -/
def mkInteger (size : Nat) (signed : Bool) (bo : Option BOrder) : FieldType :=
  .integer size signed bo .native none

/-- The `U8` helper class. -/
def u8 (bo : Option BOrder) : FieldType := mkInteger 1 false bo

/-- The `U16` helper class. -/
def u16 (bo : Option BOrder) : FieldType := mkInteger 2 false bo

/-- `Float(size, byteorder=bo)`: note that construction performs no
validation of `size` whatsoever. -/
def mkFloat (size : Nat) (bo : Option BOrder) : FieldType :=
  .float size bo .native none

/-- `Array.__init__`: stores the three strategy arguments unchecked and
overwrites the element's default byte order with the array's own
resolved preference (`self._byteorder or self._default_byteorder`,
the latter being `native` at that point). -/
def mkArray (element : FieldType) (length lengthBytes : Option LengthSpec)
    (terminator : Option Bytes) (bo : Option BOrder)
    (transform : Option (Value → Value)) : FieldType :=
  .array (setDefault ((bo.getD .native)) element) length lengthBytes terminator
    bo .native transform

/-- `Tuple.__init__`: collects the member descriptors; unlike `Array`
and `Format` it performs no byte-order propagation. -/
def mkTuple (fields : List FieldType) (bo : Option BOrder)
    (transform : Option (Value → Value)) : FieldType :=
  .tuple fields bo .native transform

/-- `String.__init__`: an `Array` over a fresh `U8` element whose default
byte order is set to the string's own resolved preference. -/
def mkString (length lengthBytes : Option LengthSpec) (terminator : Option Bytes)
    (encoding : String) (bo : Option BOrder)
    (transform : Option (Value → Value)) : FieldType :=
  .strT ((bo.getD .native)) length lengthBytes terminator encoding bo .native
    transform

/-- `Format.__init__`: at construction time each field descriptor's
default byte order is overwritten with the format's inherited order
(`self._byteorder or self._default_byteorder`, the latter `native`).
The assignment is shallow: it does not reach the fields of a nested,
already-constructed `Format`. -/
def mkFormat (fields : List (String × FieldType)) (bo : Option BOrder)
    (transform : Option (Value → Value)) : FieldType :=
  .format (fields.map (fun p => (p.1, setDefault ((bo.getD .native)) p.2))) bo
    .native transform

/-- The fields dictionary of a `Format` descriptor (empty for the other
variants, which have no `_fields`). -/
def formatFields : FieldType → List (String × FieldType)
  | .format fs _ _ _ => fs
  | _ => []

/-- Little-endian base-256 value of a byte string. -/
def leNat : Bytes → Nat
  | [] => 0
  | b :: rest => b + 256 * leNat rest

/-- `int.from_bytes(bs, e)` for unsigned interpretation. -/
def fromBytesNat (e : Endian) (bs : Bytes) : Nat :=
  match e with
  | .little => leNat bs
  | .big => leNat bs.reverse

/-- `int.from_bytes(bs, e, signed=signed)`: two's-complement when the
sign bit of the unsigned magnitude is set. -/
def intFromBytes (e : Endian) (signed : Bool) (bs : Bytes) : Int :=
  let u : Nat := fromBytesNat e bs
  if signed ∧ 2 ^ (8 * bs.length - 1) ≤ u then
    (u : Int) - ((2 ^ (8 * bs.length) : Nat) : Int)
  else (u : Int)

/-- The canonical `w`-byte little-endian encoding of `u % 2^(8w)`. -/
def toBytesLE : Nat → Nat → Bytes
  | 0, _ => []
  | w + 1, u => (u % 256) :: toBytesLE w (u / 256)

/-- The canonical `w`-byte encoding of the integer `v` in byte order `e`
(two's-complement reduction modulo `2^(8w)` first). -/
def encodeInt (e : Endian) (w : Nat) (v : Int) : Bytes :=
  let u : Nat := (v % ((2 ^ (8 * w) : Nat) : Int)).toNat
  match e with
  | .little => toBytesLE w u
  | .big => (toBytesLE w u).reverse

/-- Ordered-dictionary lookup (`fields[name]`), first match wins; the
formats of the source never hold duplicate keys. -/
def lookupCtx (ctx : Context) (name : String) : Option Value :=
  match ctx with
  | [] => none
  | (k, v) :: rest => if k = name then some v else lookupCtx rest name

/-- Resolution of a length / length_bytes specifier against the context
(`Array.length` / `Array.length_bytes`): a literal is returned as is, a
name is looked up (`KeyError` when absent, `TypeError` when the value is
not an integer), a callable is applied to the context. -/
def resolveSpec (spec : LengthSpec) (ctx : Context) : Except Err Int :=
  match spec with
  | .lit n => .ok n
  | .ref name =>
    match lookupCtx ctx name with
    | none => .error (.keyError name)
    | some (.int n) => .ok n
    | some _ => .error .typeError
  | .fn f => .ok (f ctx)

/-- Python truthiness of a `length_bytes` attribute, as tested by
`elif self._length_bytes:` — `None`, `0` and the empty string are
falsy. -/
def lengthBytesTruthy : Option LengthSpec → Bool
  | none => false
  | some (.lit n) => n ≠ 0
  | some (.ref s) => s ≠ ""
  | some (.fn _) => true

/-- `data.startswith(t)`: whether `t` is a prefix of `data` (an empty
`t` matches any data, as in Python). -/
def startswith (t data : Bytes) : Bool :=
  match t with
  | [] => true
  | tb :: ts =>
    match data with
    | [] => false
    | db :: ds => decide (tb = db) && startswith ts ds

/-- `read_field`'s transform step: `if self.to: value = self.to(value)`. -/
def applyTransform (t : Option (Value → Value)) (v : Value) : Value :=
  match t with
  | none => v
  | some f => f v

/-- `bytes(list_of_ints)`: every entry must be an `int` in `[0, 256)`. -/
def valueListToBytes : List Value → Option Bytes
  | [] => some []
  | .int n :: rest =>
    if 0 ≤ n ∧ n < 256 then (valueListToBytes rest).map (fun bs => n.toNat :: bs)
    else none
  | _ :: _ => none

/-- `bytes(value)` for a decoded array-of-`U8` value. -/
def valueToBytes : Value → Option Bytes
  | .list vs => valueListToBytes vs
  | _ => none

/-- Whether `b` is a UTF-8 continuation byte. -/
def isCont (b : Nat) : Bool := decide (128 ≤ b) && decide (b ≤ 191)

/-- UTF-8 validity of a byte string (the check performed by
`bytes.decode("utf-8")`, which raises on invalid input). -/
def utf8Valid : Bytes → Bool
  | [] => true
  | b :: rest =>
    if b ≤ 0x7F then utf8Valid rest
    else if 0xC2 ≤ b ∧ b ≤ 0xDF then
      match rest with
      | c :: r => isCont c && utf8Valid r
      | [] => false
    else if b = 0xE0 then
      match rest with
      | c :: d :: r => decide (0xA0 ≤ c ∧ c ≤ 0xBF) && isCont d && utf8Valid r
      | _ => false
    else if (0xE1 ≤ b ∧ b ≤ 0xEC) ∨ b = 0xEE ∨ b = 0xEF then
      match rest with
      | c :: d :: r => isCont c && isCont d && utf8Valid r
      | _ => false
    else if b = 0xED then
      match rest with
      | c :: d :: r => decide (0x80 ≤ c ∧ c ≤ 0x9F) && isCont d && utf8Valid r
      | _ => false
    else if b = 0xF0 then
      match rest with
      | c :: d :: x :: r =>
        decide (0x90 ≤ c ∧ c ≤ 0xBF) && isCont d && isCont x && utf8Valid r
      | _ => false
    else if 0xF1 ≤ b ∧ b ≤ 0xF3 then
      match rest with
      | c :: d :: x :: r => isCont c && isCont d && isCont x && utf8Valid r
      | _ => false
    else if b = 0xF4 then
      match rest with
      | c :: d :: x :: r =>
        decide (0x80 ≤ c ∧ c ≤ 0x8F) && isCont d && isCont x && utf8Valid r
      | _ => false
    else false

/-- The pending-call shapes of the interpreter: `ext` is
`FieldType.extract`, `rfld` is `FieldType.read_field`, `arr` is
`Array.extract`'s strategy dispatch (shared with `String`), `arrLen` /
`arrTerm` / `arrBytes` are `extract_with_length` /
`extract_with_terminator` / `extract_with_length_bytes`, `fmtGo` is the
field loop of `Format.read` and `tupGo` the loop of `Tuple.extract`.
The loop shapes carry the accumulated results; note that `arrLen`,
`arrTerm` and `arrBytes` carry no context at all — the source passes a
fresh empty dictionary to every element read — while `tupGo` carries the
very context the tuple was given. -/
inductive Call where
  | ext (ft : FieldType) (data : Bytes) (ctx : Context)
  | rfld (ft : FieldType) (data : Bytes) (ctx : Context)
  | arr (el : FieldType) (length lengthBytes : Option LengthSpec)
      (terminator : Option Bytes) (data : Bytes) (ctx : Context)
  | arrLen (el : FieldType) (data : Bytes) (count : Nat) (acc : List Value)
  | arrTerm (el : FieldType) (terminator : Bytes) (data : Bytes)
      (acc : List Value)
  | arrBytes (el : FieldType) (data : Bytes) (remaining : Int)
      (acc : List Value)
  | fmtGo (fields : List (String × FieldType)) (data : Bytes) (ctx : Context)
  | tupGo (fields : List FieldType) (data : Bytes) (ctx : Context)
      (acc : List Value)

/-- The decoding interpreter.  `run sys fuel c` performs the call `c`
with process byte order `sys`; every value-producing step returns the
decoded value together with the number of bytes read, exactly as the
source's `extract` methods return `(value, bytes_read)` pairs.  Every
nested call decrements the fuel, so `run` is structurally recursive;
`Err.outOfFuel` stands for Python non-termination. -/
def run (sys : Endian) : Nat → Call → Except Err (Value × Nat)
  | 0, _ => .error .outOfFuel
  | f + 1, c =>
    match c with
    | .ext ft data ctx =>
      match ft with
      | .integer size signed bo dbo _ =>
        if size > data.length then .error .notEnoughBytes
        else
          .ok (.int (intFromBytes (resolveBO sys bo dbo) signed (data.take size)),
            size)
      | .float size bo dbo _ =>
        if size > data.length then .error .notEnoughBytes
        else if size = 2 ∨ size = 4 ∨ size = 8 then
          .ok (.float (data.take size) (resolveBO sys bo dbo), size)
        else .error .invalidFloatSize
      | .array el l lb term _ _ _ => run sys f (.arr el l lb term data ctx)
      | .tuple fs _ _ _ => run sys f (.tupGo fs data ctx [])
      | .strT edbo l lb term enc _ _ _ =>
        match run sys f (.arr (.integer 1 false none edbo none) l lb term data ctx) with
        | .error e => .error e
        | .ok (v, n) =>
          match valueToBytes v with
          | none => .error .typeError
          | some bs =>
            if enc = "utf-8" ∧ ¬ utf8Valid bs then .error .invalidEncoding
            else .ok (.str bs enc, n)
      | .format fs _ _ _ => run sys f (.fmtGo fs data [])
    | .rfld ft data ctx =>
      match run sys f (.ext ft data ctx) with
      | .error e => .error e
      | .ok (v, n) => .ok (applyTransform (getTransform ft) v, n)
    | .arr el l lb term data ctx =>
      match l with
      | some spec =>
        match resolveSpec spec ctx with
        | .error e => .error e
        | .ok n => run sys f (.arrLen el data n.toNat [])
      | none =>
        match term with
        | some t => run sys f (.arrTerm el t data [])
        | none =>
          match lb with
          | some spec =>
            if lengthBytesTruthy (some spec) then
              match resolveSpec spec ctx with
              | .error e => .error e
              | .ok n => run sys f (.arrBytes el data n [])
            else .error .missingStrategy
          | none => .error .missingStrategy
    | .arrLen el data count acc =>
      match count with
      | 0 => .ok (.list acc, 0)
      | count' + 1 =>
        match run sys f (.rfld el data []) with
        | .error e => .error e
        | .ok (v, n) =>
          match run sys f (.arrLen el (data.drop n) count' (acc ++ [v])) with
          | .error e => .error e
          | .ok (vv, total) => .ok (vv, n + total)
    | .arrTerm el t data acc =>
      if startswith t data then .ok (.list acc, t.length)
      else
        match run sys f (.rfld el data []) with
        | .error e => .error e
        | .ok (v, n) =>
          match run sys f (.arrTerm el t (data.drop n) (acc ++ [v])) with
          | .error e => .error e
          | .ok (vv, total) => .ok (vv, n + total)
    | .arrBytes el data remaining acc =>
      if remaining ≤ 0 then .ok (.list acc, 0)
      else
        match run sys f (.rfld el data []) with
        | .error e => .error e
        | .ok (v, n) =>
          match run sys f (.arrBytes el (data.drop n) (remaining - n) (acc ++ [v])) with
          | .error e => .error e
          | .ok (vv, total) => .ok (vv, n + total)
    | .fmtGo fs data ctx =>
      match fs with
      | [] => .ok (.dict ctx, 0)
      | (name, ft) :: rest =>
        match run sys f (.rfld ft data ctx) with
        | .error e => .error e
        | .ok (v, n) =>
          match run sys f (.fmtGo rest (data.drop n) (ctx ++ [(name, v)])) with
          | .error e => .error e
          | .ok (vv, total) => .ok (vv, n + total)
    | .tupGo fs data ctx acc =>
      match fs with
      | [] => .ok (.list acc, 0)
      | ft :: rest =>
        match run sys f (.rfld ft data ctx) with
        | .error e => .error e
        | .ok (v, n) =>
          match run sys f (.tupGo rest (data.drop n) ctx (acc ++ [v])) with
          | .error e => .error e
          | .ok (vv, total) => .ok (vv, n + total)

/-- `FieldType.extract(data, fields)` with recursion budget `fuel`. -/
def extract (sys : Endian) (fuel : Nat) (ft : FieldType) (data : Bytes)
    (ctx : Context) : Except Err (Value × Nat) :=
  run sys fuel (.ext ft data ctx)

/-- `Format.read(data, allow_leftover, return_bytes=True)`: runs the
field loop from an empty context over the given field dictionary, then
applies the leftover-byte check.  After the loop the source's remaining
buffer is `data` with the consumed prefix sliced away, i.e.
`data.drop total`.  (`return_bytes=False` merely drops the second
component of the returned pair.) -/
def formatRead (sys : Endian) (fuel : Nat) (fs : List (String × FieldType))
    (data : Bytes) (allowLeftover : Bool) : Except Err (Value × Nat) :=
  match run sys fuel (.fmtGo fs data []) with
  | .error e => .error e
  | .ok (v, total) =>
    if (data.drop total).length ≠ 0 ∧ allowLeftover = false then
      .error .leftOverBytes
    else .ok (v, total)

/-- The `ByteReader` of `reader.py`: a `BytesIO` buffer with a current
position. -/
structure ByteReader where
  data : Bytes
  pos : Nat

/-- `ByteReader.read_bytes(size)`: `BytesIO.read(size)` returns up to
`size` bytes and advances the position by the number of bytes actually
returned — also when the subsequent length check fails, so a failed
read still consumes the remaining bytes.  The check is the source's
`if (not data) or (len(data) != size)`. -/
def ByteReader.readBytes (r : ByteReader) (size : Nat) :
    Except Err Bytes × ByteReader :=
  let chunk := (r.data.drop r.pos).take size
  let r' : ByteReader := ⟨r.data, r.pos + chunk.length⟩
  if chunk.length = 0 ∨ chunk.length ≠ size then (.error .notEnoughBytes, r')
  else (.ok chunk, r')

/-- `ByteReader.read_integer(size, byteorder, signed)`. -/
def ByteReader.readInteger (sys : Endian) (r : ByteReader) (size : Nat)
    (bo : BOrder) (signed : Bool) : Except Err Int × ByteReader :=
  match r.readBytes size with
  | (.ok bs, r') => (.ok (intFromBytes (normalizeByteorder sys bo) signed bs), r')
  | (.error e, r') => (.error e, r')

/-- The `BOrder` literal naming a resolved endianness. -/
def boOf : Endian → BOrder
  | .little => .little
  | .big => .big

/-! ### Concrete descriptors used by the claim examples -/

/-- The two-field Format of the C1 example: a `length: U8` field followed
by a byte-array field whose element count references `"length"`. -/
def c1fmt : FieldType :=
  mkFormat [("length", u8 none),
    ("payload", mkArray (u8 none) (some (.ref "length")) none none none none)]
    none none

/-- An inner Format with a single `U16` field carrying no explicit byte
order, constructed before being embedded (as in any Python source text
building a nested format). -/
def c3inner : FieldType := mkFormat [("x", u16 none)] none none

/-- The outer big-endian Format embedding `c3inner`. -/
def c3outer : FieldType := mkFormat [("inner", c3inner)] (some .big) none

/-- A big-endian Format whose immediate field is a `U16` with no explicit
order: the direct child does inherit `big`. -/
def c3direct : FieldType := mkFormat [("y", u16 none)] (some .big) none

/-- A big-endian Format whose immediate field explicitly requests
`little`: the explicit order wins over the inherited default. -/
def c3explicit : FieldType :=
  mkFormat [("y", u16 (some .little))] (some .big) none

/-- A `String` with a one-byte terminator (the C4 example). -/
def c4str : FieldType := mkString none none (some [0]) "utf-8" none none

/-- An `Array` of `U8` with the same one-byte terminator. -/
def c4arr : FieldType := mkArray (u8 none) none none (some [0]) none none

/-- An `Array` of `U16` with terminator `0x0000` (the C5 example). -/
def c5arr : FieldType := mkArray (u16 none) none none (some [0, 0]) none none

/-- An `Array` constructed with none of the three termination
strategies: the source accepts this at construction time. -/
def c6arrNone : FieldType := mkArray (u8 none) none none none none none

/-- An `Array` constructed with all three termination strategies at
once: the source accepts this at construction time and `length` wins at
decode time. -/
def c6arrMulti : FieldType :=
  mkArray (u8 none) (some (.lit 1)) (some (.lit 99)) (some [0]) none none

/-- A one-field Format used for the leftover-byte checks of C8. -/
def c8fmt : FieldType := mkFormat [("a", u8 none)] none none

/-- A Format whose second field is an Array of Arrays, the inner one
counting via a reference to the sibling field `"n"`: inside the outer
Array the reference is resolved against an empty context. -/
def c10fmtArr : FieldType :=
  mkFormat [("n", u8 none),
    ("arr", mkArray (mkArray (u8 none) (some (.ref "n")) none none none none)
      (some (.lit 1)) none none none none)] none none

/-- A Format whose second field is a Tuple containing an Array counting
via a reference to the sibling field `"n"`: the tuple forwards the
context it was given, so the reference resolves. -/
def c10fmtTup : FieldType :=
  mkFormat [("n", u8 none),
    ("t", mkTuple [mkArray (u8 none) (some (.ref "n")) none none none none]
      none none)] none none

/-! ### Arithmetic facts about the canonical integer encoding -/

theorem toBytesLE_length (w u : Nat) : (toBytesLE w u).length = w := by
  induction w generalizing u with
  | zero => rfl
  | succ w ih => simp [toBytesLE, ih]

theorem encodeInt_length (e : Endian) (w : Nat) (v : Int) :
    (encodeInt e w v).length = w := by
  cases e <;> simp [encodeInt, toBytesLE_length]

theorem leNat_toBytesLE (w : Nat) : ∀ u : Nat, u < 2 ^ (8 * w) →
    leNat (toBytesLE w u) = u := by
  induction w with
  | zero => intro u hu; interval_cases u; rfl
  | succ w ih =>
    intro u hu
    have hsplit : 2 ^ (8 * (w + 1)) = 2 ^ (8 * w) * 256 := by
      rw [show 8 * (w + 1) = 8 * w + 8 by ring, pow_add]; norm_num
    have hdiv : u / 256 < 2 ^ (8 * w) := by
      rw [Nat.div_lt_iff_lt_mul (by norm_num)]; omega
    simp only [toBytesLE, leNat, ih (u / 256) hdiv]
    omega

theorem emod_toNat_lt (v : Int) (w : Nat) :
    (v % ((2 ^ (8 * w) : Nat) : Int)).toNat < 2 ^ (8 * w) := by
  have hpos : (0 : Nat) < 2 ^ (8 * w) := pow_pos (by norm_num) _
  have h0 : 0 ≤ v % ((2 ^ (8 * w) : Nat) : Int) :=
    Int.emod_nonneg v (by exact_mod_cast hpos.ne')
  have h1 : v % ((2 ^ (8 * w) : Nat) : Int) < ((2 ^ (8 * w) : Nat) : Int) :=
    Int.emod_lt_of_pos v (by exact_mod_cast hpos)
  omega

theorem fromBytesNat_encodeInt (e : Endian) (w : Nat) (v : Int) :
    fromBytesNat e (encodeInt e w v) =
      (v % ((2 ^ (8 * w) : Nat) : Int)).toNat := by
  cases e <;>
    simp only [encodeInt, fromBytesNat, List.reverse_reverse] <;>
    exact leNat_toBytesLE w _ (emod_toNat_lt v w)

theorem intFromBytes_encodeInt (e : Endian) (w : Nat) (hw : 1 ≤ w)
    (signed : Bool) (v : Int)
    (hv : if signed then
        -((2 : Int) ^ (8 * w - 1)) ≤ v ∧ v < (2 : Int) ^ (8 * w - 1)
      else 0 ≤ v ∧ v < (2 : Int) ^ (8 * w)) :
    intFromBytes e signed (encodeInt e w v) = v := by
  have hlen := encodeInt_length e w v
  have hfb := fromBytesNat_encodeInt e w v
  have hQpos : (0 : Nat) < 2 ^ (8 * w) := pow_pos (by norm_num) _
  have hQcast : (((2 ^ (8 * w) : Nat)) : Int) = (2 : Int) ^ (8 * w) := by
    push_cast; ring
  cases signed with
  | false =>
    simp only [if_false, Bool.false_eq_true] at hv
    have hmod : v % ((2 ^ (8 * w) : Nat) : Int) = v :=
      Int.emod_eq_of_lt hv.1 (by rw [hQcast]; exact hv.2)
    simp only [intFromBytes, hfb, hlen, hmod]
    rw [if_neg (by simp)]
    omega
  | true =>
    simp only [if_true] at hv
    have h8 : 8 * w = (8 * w - 1) + 1 := by omega
    have hPcast : (((2 ^ (8 * w - 1) : Nat)) : Int) = (2 : Int) ^ (8 * w - 1) := by
      push_cast; ring
    have hQP : 2 ^ (8 * w) = 2 ^ (8 * w - 1) * 2 := by
      conv_lhs => rw [h8, pow_succ]
    have hPpos : (0 : Nat) < 2 ^ (8 * w - 1) := pow_pos (by norm_num) _
    rw [← hPcast] at hv
    by_cases h0 : 0 ≤ v
    · have hmod : v % ((2 ^ (8 * w) : Nat) : Int) = v :=
        Int.emod_eq_of_lt h0 (by push_cast; omega)
      simp only [intFromBytes, hfb, hlen, hmod]
      rw [if_neg (by simp; omega)]
      omega
    · have hview : v % ((2 ^ (8 * w) : Nat) : Int)
          = (v + ((2 ^ (8 * w) : Nat) : Int)) % ((2 ^ (8 * w) : Nat) : Int) := by
        conv_rhs => rw [show v + ((2 ^ (8 * w) : Nat) : Int)
          = v + ((2 ^ (8 * w) : Nat) : Int) * 1 by ring]
        rw [Int.add_mul_emod_self_left]
      have hmod : v % ((2 ^ (8 * w) : Nat) : Int)
          = v + ((2 ^ (8 * w) : Nat) : Int) := by
        rw [hview]
        exact Int.emod_eq_of_lt (by push_cast; omega) (by push_cast; omega)
      simp only [intFromBytes, hfb, hlen, hmod]
      rw [if_pos (by refine ⟨trivial, ?_⟩; omega)]
      omega

/-- Resolution of an explicitly requested endianness ignores `sys` and
the default. -/
theorem resolveBO_boOf (sys : Endian) (e : Endian) (dbo : BOrder) :
    resolveBO sys (some (boOf e)) dbo = e := by
  cases e <;> rfl

theorem normalizeByteorder_boOf (sys : Endian) (e : Endian) :
    normalizeByteorder sys (boOf e) = e := by
  cases e <;> rfl

/-- `setDefault` leaves the explicit byte order untouched. -/
theorem getBO_setDefault (d : BOrder) (ft : FieldType) :
    getBO (setDefault d ft) = getBO ft := by
  cases ft <;> rfl

/-- `setDefault` overwrites exactly the default byte order. -/
theorem getDBO_setDefault (d : BOrder) (ft : FieldType) :
    getDBO (setDefault d ft) = d := by
  cases ft <;> rfl

/-- Byte-order resolution: the explicit order if present, else the
default, with `native` standing for the process order. -/
theorem resolveBO_getD (sys : Endian) (bo : Option BOrder) (d : BOrder) :
    resolveBO sys bo d = endianOf sys (bo.getD d) := by
  cases bo <;> rfl

/-! ### Unfolding helpers for the field loop -/

theorem run_fmtGo_nil (sys : Endian) (f : Nat) (data : Bytes) (ctx : Context) :
    run sys (f + 1) (.fmtGo [] data ctx) = .ok (.dict ctx, 0) := rfl

theorem run_fmtGo_cons (sys : Endian) (f : Nat) (name : String)
    (ft : FieldType) (rest : List (String × FieldType)) (data : Bytes)
    (ctx : Context) :
    run sys (f + 1) (.fmtGo ((name, ft) :: rest) data ctx) =
      match run sys f (.rfld ft data ctx) with
      | .error e => .error e
      | .ok (v, n) =>
        match run sys f (.fmtGo rest (data.drop n) (ctx ++ [(name, v)])) with
        | .error e => .error e
        | .ok (vv, total) => .ok (vv, n + total) := rfl

/-! ### Claim theorems -/

/-- C1: a Format decodes its fields in declaration order and inserts each
decoded value into the context under its field name before the next
field is decoded, so a later field's name-reference resolves to the
earlier field's decoded value.  The first conjunct exhibits this for an
arbitrary two-field format: the second field is decoded against the
context already holding the first field's value under its name.  The
second conjunct is the concrete example: `length: U8` then a
`"length"`-counted byte array decoding `0x03 0xAA 0xBB 0xCC` yields
`{length: 3, payload: [0xAA, 0xBB, 0xCC]}` with exactly 4 bytes
consumed. -/
theorem c1_format_context_and_example :
    (∀ (sys : Endian) (f : Nat) (a b : String) (fta ftb : FieldType)
        (data : Bytes),
      run sys (f + 3) (.fmtGo [(a, fta), (b, ftb)] data []) =
        match run sys (f + 2) (.rfld fta data []) with
        | .error e => .error e
        | .ok (va, na) =>
          match run sys (f + 1) (.rfld ftb (data.drop na) [(a, va)]) with
          | .error e => .error e
          | .ok (vb, nb) => .ok (.dict [(a, va), (b, vb)], na + nb))
    ∧ (∀ sys : Endian,
      formatRead sys 30 (formatFields c1fmt) [3, 0xAA, 0xBB, 0xCC] false =
        .ok (.dict [("length", .int 3),
          ("payload", .list [.int 0xAA, .int 0xBB, .int 0xCC])], 4)) := by
  constructor
  · intro sys f a b fta ftb data
    rw [run_fmtGo_cons]
    cases h1 : run sys (f + 2) (.rfld fta data []) with
    | error e => rfl
    | ok p =>
      obtain ⟨va, na⟩ := p
      simp only [run_fmtGo_cons]
      cases h2 : run sys (f + 1) (.rfld ftb (data.drop na) [(a, va)]) with
      | error e => simp [h2]
      | ok q =>
        obtain ⟨vb, nb⟩ := q
        simp [run_fmtGo_nil, h2]
  · intro sys
    cases sys <;> rfl

/-- C2: for every integer width `w ∈ {1, 2, 4, 8}`, both signedness
values and both explicit byte orders, decoding the canonical `w`-byte
encoding of a representable value `v` returns exactly `(v, w)` — the
value round-trips and exactly `w` bytes are consumed.  This holds both
for `Integer.extract` (the buffer path used by `Format`) and for
`ByteReader.read_integer` (the stream path of `reader.py`, which also
leaves the position exactly `w` bytes further). -/
theorem c2_integer_roundtrip (sys : Endian) (f : Nat) (w : Nat) (signed : Bool)
    (e : Endian) (v : Int) (dbo : BOrder) (ctx : Context)
    (hw : w = 1 ∨ w = 2 ∨ w = 4 ∨ w = 8)
    (hv : if signed then
        -((2 : Int) ^ (8 * w - 1)) ≤ v ∧ v < (2 : Int) ^ (8 * w - 1)
      else 0 ≤ v ∧ v < (2 : Int) ^ (8 * w)) :
    extract sys (f + 1) (.integer w signed (some (boOf e)) dbo none)
        (encodeInt e w v) ctx = .ok (.int v, w)
    ∧ ByteReader.readInteger sys ⟨encodeInt e w v, 0⟩ w (boOf e) signed
        = (.ok v, ⟨encodeInt e w v, w⟩) := by
  have hw1 : 1 ≤ w := by omega
  have hlen := encodeInt_length e w v
  have htake : (encodeInt e w v).take w = encodeInt e w v :=
    List.take_of_length_le (le_of_eq hlen)
  constructor
  · simp only [extract, run]
    rw [if_neg (by omega), htake, resolveBO_boOf,
      intFromBytes_encodeInt e w hw1 signed v hv]
  · have hrb : ByteReader.readBytes ⟨encodeInt e w v, 0⟩ w
        = (.ok (encodeInt e w v), ⟨encodeInt e w v, w⟩) := by
      simp only [ByteReader.readBytes, List.drop_zero, htake]
      rw [if_neg (by omega)]
      simp [hlen]
    simp only [ByteReader.readInteger, hrb, normalizeByteorder_boOf,
      intFromBytes_encodeInt e w hw1 signed v hv]

/-- Witness for C2 at `w = 2`, signed, big-endian, `v = -2`. -/
theorem c2_integer_roundtrip_app :
    extract .little 3 (.integer 2 true (some (boOf .big)) .native none)
        (encodeInt .big 2 (-2)) [] = .ok (.int (-2), 2)
    ∧ ByteReader.readInteger .little ⟨encodeInt .big 2 (-2), 0⟩ 2 (boOf .big)
        true = (.ok (-2), ⟨encodeInt .big 2 (-2), 2⟩) :=
  c2_integer_roundtrip .little 2 2 true .big (-2) .native [] (by decide)
    (by decide)

/-- C3 counterexample: an outer big-endian Format embedding an inner
Format (no explicit order anywhere below the outer one) decodes the
inner `U16` field with the process-native order, not with `big`.  Byte
order is propagated by `Format.__init__` assigning each direct child's
`_default_byteorder`; the inner Format's own field already received its
default (`native`) when the inner Format was constructed, and the later
assignment to the inner Format does not recurse.  On a little-endian
host, `c3outer` decodes the bytes `00 01` to `{inner: {x: 256}}`,
whereas the claimed big-endian interpretation of those bytes is `1`. -/
theorem c3_nested_byteorder_cex :
    formatRead .little 30 (formatFields c3outer) [0, 1] false
      = .ok (.dict [("inner", .dict [("x", .int 256)])], 2)
    ∧ intFromBytes .big false [0, 1] = 1
    ∧ (256 : Int) ≠ 1 := by
  refine ⟨rfl, rfl, by decide⟩

/-- C3 amended: a containing Format propagates its resolved byte order
only to its immediate field descriptors, at the containing Format's
construction time; the fields of an already-constructed nested Format
keep the default in force when the nested Format was constructed, so the
outer order does not reach them.  For an immediate field the precedence
is explicit order, then the inherited default, then process-native.
Conjuncts: (1) an immediate child of a format built with order `obo`
resolves to its own explicit order if any, else to `obo` (or native when
`obo` is absent); (2) the assignment performed on an embedded Format
leaves that Format's own field dictionary untouched; (3) concretely, a
direct `U16` child of a big-endian format decodes `00 01` as `1`;
(4) an explicit `little` on the child overrides the inherited `big`;
(5) the nested case of the counterexample decodes with the native
order. -/
theorem c3_byteorder_propagation_amended :
    (∀ (sys : Endian) (obo : Option BOrder) (ft : FieldType),
      resolveOf sys (setDefault ((obo.getD .native)) ft)
        = endianOf sys ((getBO ft).getD ((obo.getD .native))))
    ∧ (∀ (d : BOrder) (fs : List (String × FieldType)) (bo : Option BOrder)
        (dbo : BOrder) (t : Option (Value → Value)),
      formatFields (setDefault d (.format fs bo dbo t)) = fs)
    ∧ formatRead .little 30 (formatFields c3direct) [0, 1] false
        = .ok (.dict [("y", .int 1)], 2)
    ∧ formatRead .little 30 (formatFields c3explicit) [0, 1] false
        = .ok (.dict [("y", .int 256)], 2)
    ∧ formatRead .little 30 (formatFields c3outer) [0, 1] false
        = .ok (.dict [("inner", .dict [("x", .int 256)])], 2) := by
  refine ⟨?_, ?_, rfl, rfl, rfl⟩
  · intro sys obo ft
    rw [resolveOf, getBO_setDefault, getDBO_setDefault, resolveBO_getD]
  · intro d fs bo dbo t
    rfl

/-- C4 counterexample: `String` with a sentinel does not include the
terminator bytes in the decoded output.  `String.extract` defers to
`Array.extract_with_terminator`, which appends only the elements read
before the terminator match and then merely adds the terminator's length
to the byte count.  Decoding `61 62 00` with a `0x00`-terminated
`String` yields the text of the bytes `[97, 98]` — not, as claimed, of
`[97, 98, 0]` — while still consuming 3 bytes. -/
theorem c4_string_terminator_cex :
    extract .little 30 c4str [97, 98, 0] [] = .ok (.str [97, 98] "utf-8", 3)
    ∧ ([97, 98] : Bytes) ≠ [97, 98, 0] := by
  refine ⟨rfl, by decide⟩

/-- C4 amended: there is no asymmetry — both `Array` and the byte-string
specialization `String` exclude the matched terminator from the decoded
result, while counting its bytes in the consumed total.  Conjunct (1):
whenever the remaining data starts with the terminator, the loop stops
appending nothing further and reports exactly the terminator's length
for that step.  Conjuncts (2) and (3): on `61 62 00`, a `0x00`-terminated
`String` yields the text of `[97, 98]` and the corresponding `Array` of
`U8` yields `[97, 98]`, both consuming 3 bytes. -/
theorem c4_terminator_exclusion_amended :
    (∀ (sys : Endian) (f : Nat) (el : FieldType) (t data : Bytes)
        (acc : List Value),
      startswith t data = true →
        run sys (f + 1) (.arrTerm el t data acc) = .ok (.list acc, t.length))
    ∧ extract .little 30 c4str [97, 98, 0] [] = .ok (.str [97, 98] "utf-8", 3)
    ∧ extract .little 30 c4arr [97, 98, 0] []
        = .ok (.list [.int 97, .int 98], 3) := by
  refine ⟨?_, rfl, rfl⟩
  intro sys f el t data acc h
  simp [run, h]

/-- Witness for the hypothesised conjunct of C4's amended theorem:
terminator `[0]` matching at the head of `[0, 7]` stops the loop at
once, appending nothing and consuming 1 byte. -/
theorem c4_terminator_exclusion_app :
    run .little 5 (.arrTerm (u8 none) [0] [0, 7] []) = .ok (.list [], 1) :=
  c4_terminator_exclusion_amended.1 .little 4 (u8 none) [0] [0, 7] []
    (by decide)

/-- C5: an Array with a sentinel stops at the first element position
where the remaining data starts with the sentinel bytes; the sentinel is
consumed (counted in the reported total) but excluded from the result
list; bytes after the sentinel are never read; and exhaustion before a
sentinel match is `NotEnoughBytes`, not an empty result.  Conjunct (1)
is the claim's example: sentinel `0x0000` over 16-bit unsigned elements
on the little-endian encoding of `[1, 2, 3, 4, 0, 10]` yields
`([1, 2, 3, 4], 10)`.  Conjunct (2) shows the trailing bytes are never
read: the result is the same over the 10-byte prefix extended by any
suffix whatsoever.  Conjunct (3): the same array over the encoding of
`[1, 2]` (no sentinel present) fails with `NotEnoughBytes`. -/
theorem c5_array_sentinel :
    extract .little 30 c5arr [1, 0, 2, 0, 3, 0, 4, 0, 0, 0, 10, 0] []
      = .ok (.list [.int 1, .int 2, .int 3, .int 4], 10)
    ∧ (∀ suffix : Bytes,
      extract .little 30 c5arr ([1, 0, 2, 0, 3, 0, 4, 0, 0, 0] ++ suffix) []
        = .ok (.list [.int 1, .int 2, .int 3, .int 4], 10))
    ∧ extract .little 30 c5arr [1, 0, 2, 0] [] = .error .notEnoughBytes := by
  refine ⟨rfl, ?_, rfl⟩
  intro suffix
  rfl

/-- C6 counterexample: neither the `Float` width nor the Array strategy
count is validated at construction time.  `Float(3)` constructs fine and
only fails during a decode — and only after the insufficient-data check,
so with an empty buffer the reported error is `NotEnoughBytes`, not a
configuration error.  An `Array` with zero strategies constructs fine
and fails at decode time; an `Array` with all three strategies
configured raises no error at all — the `length` strategy simply takes
precedence. -/
theorem c6_construction_validation_cex :
    extract .little 5 (mkFloat 3 none) [0, 0, 0] [] = .error .invalidFloatSize
    ∧ extract .little 5 (mkFloat 3 none) [] [] = .error .notEnoughBytes
    ∧ extract .little 5 c6arrNone [5] [] = .error .missingStrategy
    ∧ extract .little 30 c6arrMulti [7, 9] [] = .ok (.list [.int 7], 1) :=
  ⟨rfl, rfl, rfl, rfl⟩

/-- C6 amended: configuration validation happens at decode time, not at
construction.  (1) A `Float` whose width is not 2, 4 or 8 fails during
`extract` with the invalid-size error, provided enough bytes are
available; (2) when fewer bytes than the width remain, the
insufficient-data check fires first, even for an invalid width; (3) an
`Array` with none of the three strategies fails during `extract` with
its configuration error; (4) an `Array` with a `length` strategy decodes
identically whether or not `length_bytes` or a terminator are also
configured (`length` shadows both); (5) a terminator likewise shadows
`length_bytes`. -/
theorem c6_decode_time_validation_amended :
    (∀ (sys : Endian) (f w : Nat) (bo : Option BOrder) (dbo : BOrder)
        (tr : Option (Value → Value)) (data : Bytes) (ctx : Context),
      ¬ (w = 2 ∨ w = 4 ∨ w = 8) → ¬ (w > data.length) →
        extract sys (f + 1) (.float w bo dbo tr) data ctx
          = .error .invalidFloatSize)
    ∧ (∀ (sys : Endian) (f w : Nat) (bo : Option BOrder) (dbo : BOrder)
        (tr : Option (Value → Value)) (data : Bytes) (ctx : Context),
      w > data.length →
        extract sys (f + 1) (.float w bo dbo tr) data ctx
          = .error .notEnoughBytes)
    ∧ (∀ (sys : Endian) (f : Nat) (el : FieldType) (bo : Option BOrder)
        (dbo : BOrder) (tr : Option (Value → Value)) (data : Bytes)
        (ctx : Context),
      extract sys (f + 2) (.array el none none none bo dbo tr) data ctx
        = .error .missingStrategy)
    ∧ (∀ (sys : Endian) (f : Nat) (el : FieldType) (l : LengthSpec)
        (lb : Option LengthSpec) (t : Option Bytes) (bo : Option BOrder)
        (dbo : BOrder) (tr : Option (Value → Value)) (data : Bytes)
        (ctx : Context),
      extract sys f (.array el (some l) lb t bo dbo tr) data ctx
        = extract sys f (.array el (some l) none none bo dbo tr) data ctx)
    ∧ (∀ (sys : Endian) (f : Nat) (el : FieldType) (lb : Option LengthSpec)
        (tb : Bytes) (bo : Option BOrder) (dbo : BOrder)
        (tr : Option (Value → Value)) (data : Bytes) (ctx : Context),
      extract sys f (.array el none lb (some tb) bo dbo tr) data ctx
        = extract sys f (.array el none none (some tb) bo dbo tr) data ctx) := by
  refine ⟨?_, ?_, ?_, ?_, ?_⟩
  · intro sys f w bo dbo tr data ctx hsize hlen
    simp only [extract, run]
    rw [if_neg hlen, if_neg hsize]
  · intro sys f w bo dbo tr data ctx hlen
    simp only [extract, run]
    rw [if_pos hlen]
  · intro sys f el bo dbo tr data ctx
    rfl
  · intro sys f el l lb t bo dbo tr data ctx
    rcases f with _ | f
    · rfl
    rcases f with _ | f <;> rfl
  · intro sys f el lb tb bo dbo tr data ctx
    rcases f with _ | f
    · rfl
    rcases f with _ | f <;> rfl

/-- Witness for the hypothesised conjuncts of C6's amended theorem: a
`Float` of width 3 over a 3-byte buffer reports the invalid size at
decode time, and the same descriptor over a 2-byte buffer reports
`NotEnoughBytes` first. -/
theorem c6_decode_time_validation_app :
    extract .little 5 (.float 3 none .native none) [0, 0, 0] []
      = .error .invalidFloatSize
    ∧ extract .little 5 (.float 3 none .native none) [0, 0] []
      = .error .notEnoughBytes :=
  ⟨c6_decode_time_validation_amended.1 .little 4 3 none .native none [0, 0, 0]
      [] (by decide) (by decide),
    c6_decode_time_validation_amended.2.1 .little 4 3 none .native none [0, 0]
      [] (by decide)⟩

/-- C7 counterexample: `ByteReader.read_bytes` does not leave the
position unchanged on a failed read.  On a one-byte source, requesting
4 bytes raises `NotEnoughBytes`, but `BytesIO.read` has already consumed
the single available byte: the position after the failed read is 1, not
0. -/
theorem c7_reader_position_cex :
    ByteReader.readBytes ⟨[5], 0⟩ 4 = (.error .notEnoughBytes, ⟨[5], 1⟩)
    ∧ (1 : Nat) ≠ 0 :=
  ⟨rfl, by decide⟩

/-- C7 amended: the buffer-slice decode path is atomic — `Integer.extract`
checks the remaining length before reading and fails without consuming
anything (conjunct 1; its caller only advances the buffer on success).
The stream path is not: `ByteReader.read_bytes` always advances the
position by the number of bytes actually available up to the request
(conjunct 2, which holds on failure as well), and it fails exactly when
the returned chunk is empty or shorter than requested (conjunct 3 — note
that a zero-byte request on an exhausted region also fails, because
`not data` is true for an empty `bytes`). -/
theorem c7_failed_read_amended :
    (∀ (sys : Endian) (f w : Nat) (signed : Bool) (bo : Option BOrder)
        (dbo : BOrder) (tr : Option (Value → Value)) (data : Bytes)
        (ctx : Context),
      data.length < w →
        extract sys (f + 1) (.integer w signed bo dbo tr) data ctx
          = .error .notEnoughBytes)
    ∧ (∀ (r : ByteReader) (size : Nat),
      (r.readBytes size).2.pos = r.pos + ((r.data.drop r.pos).take size).length
      ∧ (r.readBytes size).2.data = r.data)
    ∧ (∀ (r : ByteReader) (size : Nat),
      (r.readBytes size).1 = .error .notEnoughBytes
        ↔ ((r.data.drop r.pos).take size).length = 0
          ∨ ((r.data.drop r.pos).take size).length ≠ size) := by
  refine ⟨?_, ?_, ?_⟩
  · intro sys f w signed bo dbo tr data ctx h
    simp only [extract, run]
    rw [if_pos h]
  · intro r size
    constructor <;> · simp only [ByteReader.readBytes]; split <;> rfl
  · intro r size
    simp only [ByteReader.readBytes]
    split
    next h => exact iff_of_true rfl h
    next h => exact iff_of_false (by simp) h

/-- Witness for the hypothesised conjunct of C7's amended theorem: a
4-byte `Integer` over a 1-byte buffer fails with `NotEnoughBytes`. -/
theorem c7_failed_read_app :
    extract .little 5 (.integer 4 false none .native none) [9] []
      = .error .notEnoughBytes :=
  c7_failed_read_amended.1 .little 4 4 false none .native none [9] []
    (by decide)

/-- C8: with leftover disallowed, a top-level decode that does not
exhaust the source fails with the trailing-data error; the same input
with leftover allowed succeeds with the correct consumed count; and an
embedded Format is always decoded permissively.  Conjunct (1): whenever
the permissive read succeeds with `total` consumed and bytes remain
after `total`, the strict read of the same input fails with the
trailing-data error.  Conjunct (2): the concrete one-extra-byte example,
both strict and permissive.  Conjunct (3): decoding a Format embedded as
a field equals reading it with leftover allowed, for every input. -/
theorem c8_leftover :
    (∀ (sys : Endian) (fuel : Nat) (fs : List (String × FieldType))
        (data : Bytes) (v : Value) (total : Nat),
      formatRead sys fuel fs data true = .ok (v, total) →
      (data.drop total).length ≠ 0 →
      formatRead sys fuel fs data false = .error .leftOverBytes)
    ∧ (∀ sys : Endian,
      formatRead sys 10 (formatFields c8fmt) [1, 2] false
          = .error .leftOverBytes
        ∧ formatRead sys 10 (formatFields c8fmt) [1, 2] true
          = .ok (.dict [("a", .int 1)], 1))
    ∧ (∀ (sys : Endian) (f : Nat) (fs : List (String × FieldType))
        (bo : Option BOrder) (dbo : BOrder) (tr : Option (Value → Value))
        (data : Bytes) (ctx : Context),
      extract sys (f + 1) (.format fs bo dbo tr) data ctx
        = formatRead sys f fs data true) := by
  refine ⟨?_, ?_, ?_⟩
  · intro sys fuel fs data v total h1 h2
    simp only [formatRead] at h1
    cases hrun : run sys fuel (.fmtGo fs data []) with
    | error e => rw [hrun] at h1; exact absurd h1 (by simp)
    | ok p =>
      obtain ⟨v', t'⟩ := p
      rw [hrun] at h1
      simp at h1
      obtain ⟨rfl, rfl⟩ := h1
      simp only [formatRead, hrun]
      rw [if_pos ⟨h2, trivial⟩]
  · intro sys
    cases sys <;> exact ⟨rfl, rfl⟩
  · intro sys f fs bo dbo tr data ctx
    simp only [extract, run, formatRead]
    cases hrun : run sys f (.fmtGo fs data []) with
    | error e => simp [hrun]
    | ok p => simp [hrun]

/-- Witness for the hypothesised conjunct of C8: the one-field format
over `[1, 2]` consumes one byte permissively, so the strict read fails
with the trailing-data error. -/
theorem c8_leftover_app :
    formatRead .little 10 (formatFields c8fmt) [1, 2] false
      = .error .leftOverBytes :=
  c8_leftover.1 .little 10 (formatFields c8fmt) [1, 2] (.dict [("a", .int 1)])
    1 rfl (by decide)

/-- C9 counterexample: descriptors are not immutable under embedding.
A `U16` with no explicit order resolves to the process-native order
(little here); constructing a big-endian Format around that very
descriptor performs `field._default_byteorder = "big"` — modelled by
`setDefault .big`, which is exactly what `mkFormat` stores (conjunct 2),
and in Python is an in-place mutation of the shared object.  The
descriptor's resolved byte order observably changes from `little` to
`big`, and the same two bytes now decode to a different value (256
before, 1 after). -/
theorem c9_descriptor_mutation_cex :
    resolveOf .little (u16 none) = .little
    ∧ mkFormat [("x", u16 none)] (some .big) none
        = .format [("x", setDefault .big (u16 none))] (some .big) .native none
    ∧ resolveOf .little (setDefault .big (u16 none)) = .big
    ∧ extract .little 5 (u16 none) [0, 1] [] = .ok (.int 256, 2)
    ∧ extract .little 5 (setDefault .big (u16 none)) [0, 1] []
        = .ok (.int 1, 2)
    ∧ Endian.little ≠ Endian.big :=
  ⟨rfl, rfl, rfl, rfl, rfl, by decide⟩

/-- C9 amended: descriptors are stateless with respect to decoding (the
decode functions are pure, so repeated decodes of the same bytes with
the same descriptor state agree), but they are not immutable after
construction: embedding a descriptor overwrites its default byte order
with the container's resolved order.  (1) After the container's
assignment the resolved order is the descriptor's explicit order if any,
else the assigned default; (2) the assignment preserves the explicit
order; (3) it overwrites exactly the default; (4)–(5) concretely, the
assignment changes what a shared orderless `U16` decodes: `00 01` reads
as 256 before embedding and as 1 after being embedded in a big-endian
container, and `(256 : Int) ≠ 1`. -/
theorem c9_descriptor_mutation_amended :
    (∀ (sys : Endian) (d : BOrder) (ft : FieldType),
      resolveOf sys (setDefault d ft) = endianOf sys ((getBO ft).getD d))
    ∧ (∀ (d : BOrder) (ft : FieldType), getBO (setDefault d ft) = getBO ft)
    ∧ (∀ (d : BOrder) (ft : FieldType), getDBO (setDefault d ft) = d)
    ∧ (extract .little 5 (u16 none) [0, 1] [] = .ok (.int 256, 2)
      ∧ extract .little 5 (setDefault .big (u16 none)) [0, 1] []
          = .ok (.int 1, 2)
      ∧ (256 : Int) ≠ 1) := by
  refine ⟨?_, getBO_setDefault, getDBO_setDefault, rfl, rfl, by decide⟩
  intro sys d ft
  rw [resolveOf, getBO_setDefault, getDBO_setDefault, resolveBO_getD]

/-- C10: Array element decodes receive an empty context, so an element
descriptor whose count references a previously decoded sibling field by
name fails inside an Array, whereas a Tuple forwards the very context it
was given.  Conjunct (1): an Array whose element is itself an Array
counting via a name reference fails with a `KeyError` for that name
under every context — even one that binds the name.  Conjunct (2): the
concrete format decoding `n = 2` and then such a nested Array fails with
`KeyError "n"`.  Conjunct (3): the same reference inside a Tuple
resolves against the format context and succeeds. -/
theorem c10_array_empty_context :
    (∀ (sys : Endian) (f : Nat) (name : String) (ebo : Option BOrder)
        (edbo : BOrder) (abo obo : Option BOrder) (adbo odbo : BOrder)
        (data : Bytes) (ctx : Context),
      extract sys (f + 6)
          (.array
            (.array (.integer 1 false ebo edbo none) (some (.ref name)) none
              none abo adbo none)
            (some (.lit 1)) none none obo odbo none) data ctx
        = .error (.keyError name))
    ∧ formatRead .little 30 (formatFields c10fmtArr) [2, 5, 6] false
        = .error (.keyError "n")
    ∧ formatRead .little 30 (formatFields c10fmtTup) [2, 5, 6] false
        = .ok (.dict [("n", .int 2), ("t", .list [.list [.int 5, .int 6]])],
            3) := by
  refine ⟨?_, rfl, rfl⟩
  intro sys f name ebo edbo abo obo adbo odbo data ctx
  rfl

end Binread
